import Mathlib

/-!
Verification of the client-side dashboard scripts of VulnMap
(scan_animation.js, resolve_ports.js, user_dashboard.js, news_search.js).

Each section embeds the data model and the control flow of one script as
executable Lean definitions and proves the stated properties about them.
Asynchronous behaviour (the browser event loop, interval timers, promise
settlement) is modelled by explicit state passing over discrete time or by
oracles giving the settled outcome of each network call.
-/

namespace VulnMap

/-! ## Scan overlay animator (scan_animation.js, `doScan`) -/

/-- Page-level state touched by the synchronous body of `doScan`.
`scanRequests` counts POSTs issued to the scan endpoint. -/
structure PageState where
  scanInFlight : Bool
  overlayShown : Bool
  btnDisabled : Bool
  scanRequests : Nat
deriving DecidableEq, Repr

/-- Synchronous body of `doScan`: if a scan is already in flight it returns
immediately (no request, no overlay, no state change); otherwise it sets the
guard, shows the overlay, disables the trigger button and fires exactly one
scan request. -/
def doScan (s : PageState) : PageState :=
  if s.scanInFlight then s
  else
    { scanInFlight := true
      overlayShown := true
      btnDisabled := true
      scanRequests := s.scanRequests + 1 }

/-- State of one scan overlay run on the event loop.  `registered` records
that the animation loop has observed `elapsed >= totalMs` and attached the
finalization continuation to the scan request promise (the
`Promise.resolve(req).finally(...)` in `tick`); `finalizedAt` records the
time at which the finalization continuation actually ran. -/
structure ScanSim where
  registered : Bool
  finalizedAt : Option Nat
deriving DecidableEq, Repr

/-- One unit of event-loop time `t` during a scan run that started at time
`start` with animation duration `totalMs`, whose network request settles at
time `netTime`.  A frame callback fires: while `elapsed < totalMs` it only
animates; at the first frame with `elapsed >= totalMs` it attaches the
finalization continuation to the request promise.  The continuation runs as
soon as it is both attached and the request has settled, and runs once. -/
def scanStep (start totalMs netTime : Nat) (s : ScanSim) (t : Nat) : ScanSim :=
  let s1 := if s.registered = false ∧ start + totalMs ≤ t then
      { s with registered := true }
    else s
  if s1.registered = true ∧ netTime ≤ t ∧ s1.finalizedAt = none then
    { s1 with finalizedAt := some t }
  else s1

/-- Run the scan-overlay event loop for `n` units of time. -/
def scanSim (start totalMs netTime : Nat) : Nat → ScanSim
  | 0 => ⟨false, none⟩
  | n + 1 => scanStep start totalMs netTime (scanSim start totalMs netTime n) n

lemma scanSim_invariant (start totalMs netTime : Nat) (n : Nat) :
    ((scanSim start totalMs netTime n).registered = true → start + totalMs < n) ∧
    (∀ tf, (scanSim start totalMs netTime n).finalizedAt = some tf →
      start + totalMs ≤ tf ∧ netTime ≤ tf) := by
  induction n with
  | zero => simp [scanSim]
  | succ n ih =>
    obtain ⟨ihr, ihf⟩ := ih
    have hstep : scanSim start totalMs netTime (n + 1) =
        scanStep start totalMs netTime (scanSim start totalMs netTime n) n := rfl
    set s := scanSim start totalMs netTime n with hs
    by_cases hreg : s.registered = false ∧ start + totalMs ≤ n
    · -- registration happens at this step
      by_cases hfin : netTime ≤ n ∧ s.finalizedAt = none
      · have : scanSim start totalMs netTime (n + 1) =
            { registered := true, finalizedAt := some n } := by
          rw [hstep]
          simp [scanStep, hreg.1, hreg.2, hfin.1, hfin.2]
        rw [this]
        refine ⟨fun _ => by omega, fun tf htf => ?_⟩
        simp at htf
        omega
      · have : scanSim start totalMs netTime (n + 1) =
            { registered := true, finalizedAt := s.finalizedAt } := by
          rw [hstep]
          simp only [scanStep]
          rw [if_pos hreg]
          split
          · rename_i hc
            exfalso
            exact hfin ⟨hc.2.1, hc.2.2⟩
          · rfl
        rw [this]
        exact ⟨fun _ => by omega, fun tf htf => ihf tf htf⟩
    · -- no registration at this step
      have hs1 : (if s.registered = false ∧ start + totalMs ≤ n then
          { s with registered := true } else s) = s := if_neg hreg
      by_cases hfire : s.registered = true ∧ netTime ≤ n ∧ s.finalizedAt = none
      · have : scanSim start totalMs netTime (n + 1) =
            { s with finalizedAt := some n } := by
          rw [hstep]
          simp only [scanStep, hs1]
          exact if_pos hfire
        rw [this]
        refine ⟨fun _ => by have := ihr hfire.1; omega, fun tf htf => ?_⟩
        simp at htf
        have := ihr hfire.1
        omega
      · have : scanSim start totalMs netTime (n + 1) = s := by
          rw [hstep]
          simp only [scanStep, hs1]
          exact if_neg hfire
        rw [this]
        exact ⟨fun h => by have := ihr h; omega, ihf⟩

/-- C1: for every page instance, while the `scanInFlight` flag is set, any
further invocation of `doScan` returns immediately without issuing a network
request, showing the overlay, or changing any state. -/
theorem scan_guard_no_reentry (s : PageState) (h : s.scanInFlight = true) :
    doScan s = s := by
  simp [doScan, h]

theorem scan_guard_no_reentry_witness :
    (PageState.mk true true true 1).scanInFlight = true ∧
      doScan (PageState.mk true true true 1) = PageState.mk true true true 1 :=
  ⟨rfl, scan_guard_no_reentry (PageState.mk true true true 1) rfl⟩

/-- C2: for every scan run, finalization happens only after both the full
animation duration has elapsed (time `start + totalMs`) and the scan network
request has settled (time `netTime`) — a join of the two events, never a race
where one alone suffices. -/
theorem scan_finalize_join (start totalMs netTime n tf : Nat)
    (h : (scanSim start totalMs netTime n).finalizedAt = some tf) :
    start + totalMs ≤ tf ∧ netTime ≤ tf :=
  (scanSim_invariant start totalMs netTime n).2 tf h

theorem scan_finalize_join_witness :
    (scanSim 0 2 5 10).finalizedAt = some 5 ∧ 0 + 2 ≤ 5 ∧ 5 ≤ 5 :=
  ⟨by decide, scan_finalize_join 0 2 5 10 5 (by decide)⟩

/-! ## Resolve endpoint client (resolve_ports.js, `apiResolve`) -/

/-- JSON body shapes returned by the resolve endpoint on an HTTP-OK
response: `{ok:true,...}`, `{ok:false,error:'too_early',seconds_remaining:N}`,
or any other `{ok:false,...}` body. -/
inductive ResolveBody where
  | okPayload
  | tooEarly (secondsRemaining : Int)
  | errOther
deriving DecidableEq, Repr

/-- Outcome of one `fetch` of the resolve endpoint: a rejected promise, an
HTTP-OK response with a JSON body, or a non-OK response with a status code. -/
inductive HttpResp where
  | reject
  | ok (body : ResolveBody)
  | status (code : Nat)
deriving DecidableEq, Repr

/-- Settled outcome of one `apiResolve` promise chain: a JSON body, the
synthesised failure value `{ok:false, error:"http_<status>"}`, or a
rejection propagated from a rejected `fetch`. -/
inductive ApiResult where
  | body (b : ResolveBody)
  | httpErr (e : String)
  | rejected
deriving DecidableEq, Repr

/-- Observable trace of one `apiResolve` invocation: its settled result, the
number of HTTP calls it made, the backoff delays slept between calls, and
the generator-invocation indices of the idempotency keys attached to each
HTTP call. -/
structure ApiOut where
  result : ApiResult
  calls : Nat
  delays : List Nat
  keys : List Nat
deriving DecidableEq, Repr

/-- The recursion of `apiResolve` from resolve_ports.js.  `http i` is the
outcome of the i-th HTTP call of the page; `c` is the index of the next
call, and call `c + i` attaches the idempotency key of generator invocation
`c + i` (the headers invoke `H.idempotencyKey()` afresh on every call).
The source recursion `apiResolve(portId, attempt + 1)` is guarded by
`attempt < 2`, so its depth from `attempt` is at most `2 - attempt`; the
structural `fuel` argument is kept at least that large by the entry point,
which makes the fuel-0 arm coincide with the budget-exhausted return of the
guard (`{ok:false, error:'http_' + r.status}`). -/
def apiResolveAux (http : Nat → HttpResp) : Nat → Nat → Nat → ApiOut
  | 0, c, _ =>
    match http c with
    | .reject => ⟨.rejected, 1, [], [c]⟩
    | .ok b => ⟨.body b, 1, [], [c]⟩
    | .status code => ⟨.httpErr ("http_" ++ toString code), 1, [], [c]⟩
  | fuel + 1, c, attempt =>
    match http c with
    | .reject => ⟨.rejected, 1, [], [c]⟩
    | .ok b => ⟨.body b, 1, [], [c]⟩
    | .status code =>
      if (code = 409 ∨ code = 423) ∧ attempt < 2 then
        let r := apiResolveAux http fuel (c + 1) (attempt + 1)
        ⟨r.result, r.calls + 1, 150 * (attempt + 1) :: r.delays, c :: r.keys⟩
      else ⟨.httpErr ("http_" ++ toString code), 1, [], [c]⟩

/-- `apiResolve(portId)` as invoked by the resolve flow: attempt number 0,
with fuel 2 covering the maximal retry depth allowed by `attempt < 2`. -/
def apiResolve (http : Nat → HttpResp) (c : Nat) : ApiOut :=
  apiResolveAux http 2 c 0

lemma apiResolveAux_spec (http : Nat → HttpResp) :
    ∀ fuel c attempt,
      (1 ≤ (apiResolveAux http fuel c attempt).calls ∧
       (apiResolveAux http fuel c attempt).calls ≤ fuel + 1) ∧
      (apiResolveAux http fuel c attempt).delays =
        (List.range ((apiResolveAux http fuel c attempt).calls - 1)).map
          (fun i => 150 * (attempt + i + 1)) ∧
      (apiResolveAux http fuel c attempt).keys =
        List.range' c (apiResolveAux http fuel c attempt).calls ∧
      (∀ e, (apiResolveAux http fuel c attempt).result = .httpErr e →
        ∃ code : Nat, e = "http_" ++ toString code) ∧
      ((apiResolveAux http fuel c attempt).result = .rejected →
        ∃ i, i < (apiResolveAux http fuel c attempt).calls ∧ http (c + i) = .reject) := by
  intro fuel
  induction fuel with
  | zero =>
    intro c attempt
    rcases h : http c with _ | b | code <;>
      simp [apiResolveAux, h, List.range']
    exact ⟨code, rfl⟩
  | succ fuel ih =>
    intro c attempt
    rcases h : http c with _ | b | code
    · simp [apiResolveAux, h, List.range']
    · simp [apiResolveAux, h, List.range']
    · by_cases hg : (code = 409 ∨ code = 423) ∧ attempt < 2
      · obtain ⟨⟨h1, h2⟩, h3, h4, h5⟩ := ih (c + 1) (attempt + 1)
        have hunf : apiResolveAux http (fuel + 1) c attempt =
            ⟨(apiResolveAux http fuel (c + 1) (attempt + 1)).result,
             (apiResolveAux http fuel (c + 1) (attempt + 1)).calls + 1,
             150 * (attempt + 1) :: (apiResolveAux http fuel (c + 1) (attempt + 1)).delays,
             c :: (apiResolveAux http fuel (c + 1) (attempt + 1)).keys⟩ := by
          simp [apiResolveAux, h, hg]
        rw [hunf]
        dsimp only
        refine ⟨⟨by omega, by omega⟩, ?_, ?_, ?_, ?_⟩
        · obtain ⟨k, hk⟩ : ∃ k, (apiResolveAux http fuel (c + 1) (attempt + 1)).calls
              = k + 1 := ⟨_, (Nat.succ_pred_eq_of_pos h1).symm⟩
          rw [h3, hk]
          simp only [Nat.add_sub_cancel, List.range_succ_eq_map, List.map_cons,
            List.map_map]
          refine List.cons_eq_cons.mpr ⟨by omega, ?_⟩
          apply List.map_congr_left
          intro i _
          simp only [Function.comp_apply]
          omega
        · rw [h4]
          rw [List.range'_succ]
        · intro e he
          exact h5.1 e he
        · intro hrj
          obtain ⟨i, hi, hir⟩ := h5.2 hrj
          exact ⟨i + 1, by omega, by rw [show c + (i + 1) = c + 1 + i by omega]; exact hir⟩
      · simp [apiResolveAux, h, hg, List.range']
        exact ⟨code, rfl⟩

/-- C3: an HTTP 409 or 423 response to a resolve request is retried up to 2
additional attempts with linear backoff of 150ms × attempt number, so every
`apiResolve` invocation makes at most 3 HTTP calls; after the retry budget
is exhausted (or on any other non-OK status) the call returns the failure
value `{ok:false, error:"http_<status>"}` instead of throwing. -/
theorem apiResolve_retry_policy (http : Nat → HttpResp) (c : Nat) :
    (apiResolve http c).calls ≤ 3 ∧
    (apiResolve http c).delays =
      (List.range ((apiResolve http c).calls - 1)).map (fun i => 150 * (i + 1)) ∧
    (∀ e, (apiResolve http c).result = ApiResult.httpErr e →
      ∃ code : Nat, e = "http_" ++ toString code) ∧
    ((apiResolve http c).result = ApiResult.rejected →
      ∃ i, i < (apiResolve http c).calls ∧ http (c + i) = HttpResp.reject) ∧
    (∀ code, http c = HttpResp.status code → code ≠ 409 → code ≠ 423 →
      apiResolve http c =
        ⟨ApiResult.httpErr ("http_" ++ toString code), 1, [], [c]⟩) ∧
    (∀ a b code, (a = 409 ∨ a = 423) → (b = 409 ∨ b = 423) →
      http c = HttpResp.status a → http (c + 1) = HttpResp.status b →
      http (c + 2) = HttpResp.status code →
      (apiResolve http c).result = ApiResult.httpErr ("http_" ++ toString code) ∧
      (apiResolve http c).calls = 3 ∧ (apiResolve http c).delays = [150, 300]) := by
  obtain ⟨⟨h1, h2⟩, h3, _h4, h5, h6⟩ := apiResolveAux_spec http 2 c 0
  refine ⟨h2, ?_, h5, h6, ?_, ?_⟩
  · rw [show apiResolve http c = apiResolveAux http 2 c 0 from rfl, h3]
    apply List.map_congr_left
    intro i _
    omega
  · intro code hc hne409 hne423
    have hg : ¬ ((code = 409 ∨ code = 423) ∧ 0 < 2) := by
      rintro ⟨hor, -⟩
      rcases hor with h | h
      · exact hne409 h
      · exact hne423 h
    simp [apiResolve, apiResolveAux, hc, hg]
    exact ⟨hne409, hne423⟩
  · intro a b code ha hb hca hcb hcc
    have hga : (a = 409 ∨ a = 423) ∧ 0 < 2 := ⟨ha, by omega⟩
    have hgb : (b = 409 ∨ b = 423) ∧ 1 < 2 := ⟨hb, by omega⟩
    simp [apiResolve, apiResolveAux, hca, hcb, hcc, hga, hgb]

theorem apiResolve_retry_policy_witness :
    (apiResolve (fun _ => HttpResp.status 409) 0).result =
        ApiResult.httpErr ("http_" ++ toString 409) ∧
      (apiResolve (fun _ => HttpResp.status 409) 0).calls = 3 ∧
      (apiResolve (fun _ => HttpResp.status 409) 0).delays = [150, 300] :=
  (apiResolve_retry_policy (fun _ => HttpResp.status 409) 0).2.2.2.2.2
    409 409 409 (Or.inl rfl) (Or.inl rfl) rfl rfl rfl

/-! ## Row resolve flow (resolve_ports.js, `handleResolve`) -/

/-- Observable trace of one `handleResolve` flow.  `apiCalls` counts
`apiResolve` invocations, `httpCalls` the underlying HTTP requests,
`keyIdxs` the idempotency-key generator invocations attached to those
requests, `countdowns` the durations (whole seconds) of the mini countdowns
started, `finalized` whether `finalizeResolve` ran, `miniHidden` whether the
mini progress indicator is hidden at the end, and `errorShown` whether any
error message was surfaced to the user (the flow has no such path). -/
structure FlowOut where
  apiCalls : Nat
  httpCalls : Nat
  keyIdxs : List Nat
  countdowns : List Nat
  finalized : Bool
  miniHidden : Bool
  errorShown : Bool
deriving DecidableEq, Repr

/-- The single retry `apiResolve(pid).then(p2 => ...)` issued when a mini
countdown completes: `p2.ok` finalizes the row (which hides the mini
indicator), anything else — including a rejected promise — just hides the
mini indicator. -/
def retryResolveOnce (http : Nat → HttpResp) (c : Nat) : FlowOut :=
  let r := apiResolve http c
  match r.result with
  | .body .okPayload => ⟨1, r.calls, r.keys, [], true, true, false⟩
  | _ => ⟨1, r.calls, r.keys, [], false, true, false⟩

/-- One `apiResolve` with the shared continuation used by all three branches
of `handleResolve`: `ok` finalizes; `too_early` with positive
`seconds_remaining` starts a mini countdown of exactly that many seconds and
then retries once; anything else hides the mini indicator; a rejected
promise is caught and hides the mini indicator. -/
def resolveFlow (http : Nat → HttpResp) (c : Nat) : FlowOut :=
  let r := apiResolve http c
  match r.result with
  | .body .okPayload => ⟨1, r.calls, r.keys, [], true, true, false⟩
  | .body (.tooEarly s) =>
    if 0 < s then
      let r2 := retryResolveOnce http (c + r.calls)
      ⟨1 + r2.apiCalls, r.calls + r2.httpCalls, r.keys ++ r2.keyIdxs,
       Int.toNat s :: r2.countdowns, r2.finalized, r2.miniHidden, r2.errorShown⟩
    else ⟨1, r.calls, r.keys, [], false, true, false⟩
  | _ => ⟨1, r.calls, r.keys, [], false, true, false⟩

/-- `handleResolve`: the priming `apiRemaining` call either fails
(`remaining = none`, the catch branch) or yields a remaining-seconds value
`v`, normalised by `Math.max(0, parseInt(...))` to `Int.toNat v`.  When it
is zero the resolve is attempted immediately; when positive a mini countdown
of that duration runs first and the resolve is attempted on completion.  All
three branches then run the same continuation, `resolveFlow`. -/
def handleResolve (remaining : Option Int) (http : Nat → HttpResp) (c : Nat) :
    FlowOut :=
  match remaining with
  | some v =>
    if Int.toNat v = 0 then resolveFlow http c
    else
      let f := resolveFlow http c
      { f with countdowns := Int.toNat v :: f.countdowns }
  | none => resolveFlow http c

lemma retryResolveOnce_shape (http : Nat → HttpResp) (c : Nat) :
    (retryResolveOnce http c).apiCalls = 1 ∧
    (retryResolveOnce http c).httpCalls = (apiResolve http c).calls ∧
    (retryResolveOnce http c).keyIdxs = (apiResolve http c).keys ∧
    (retryResolveOnce http c).countdowns = [] ∧
    (retryResolveOnce http c).miniHidden = true ∧
    (retryResolveOnce http c).errorShown = false := by
  rcases h : (apiResolve http c).result with b | e | _
  · rcases b with _ | s | _ <;> simp [retryResolveOnce, h]
  · simp [retryResolveOnce, h]
  · simp [retryResolveOnce, h]

lemma resolveFlow_tooEarly (http : Nat → HttpResp) (c : Nat) (s : Int)
    (h : (apiResolve http c).result = ApiResult.body (ResolveBody.tooEarly s))
    (hs : 0 < s) :
    (resolveFlow http c).apiCalls = 2 ∧
    (resolveFlow http c).countdowns = [Int.toNat s] ∧
    (resolveFlow http c).errorShown = false := by
  obtain ⟨r1, r2, r3, r4, r5, r6⟩ :=
    retryResolveOnce_shape http (c + (apiResolve http c).calls)
  simp [resolveFlow, h, hs, r1, r4, r6]

lemma resolveFlow_shape (http : Nat → HttpResp) (c : Nat) :
    1 ≤ (resolveFlow http c).apiCalls ∧
    (resolveFlow http c).errorShown = false ∧
    (resolveFlow http c).miniHidden = true := by
  rcases h : (apiResolve http c).result with b | e | _
  · rcases b with _ | s | _
    · simp [resolveFlow, h]
    · by_cases hs : 0 < s
      · obtain ⟨r1, r2, r3, r4, r5, r6⟩ :=
          retryResolveOnce_shape http (c + (apiResolve http c).calls)
        simp [resolveFlow, h, hs, r1, r5, r6]
      · simp [resolveFlow, h, hs]
    · simp [resolveFlow, h]
  · simp [resolveFlow, h]
  · simp [resolveFlow, h]

lemma range'_append_eq (s m n : Nat) :
    List.range' s m ++ List.range' (s + m) n = List.range' s (m + n) := by
  simp [Nat.add_comm]

lemma apiResolve_keys (http : Nat → HttpResp) (c : Nat) :
    (apiResolve http c).keys = List.range' c (apiResolve http c).calls :=
  (apiResolveAux_spec http 2 c 0).2.2.1

lemma resolveFlow_keys (http : Nat → HttpResp) (c : Nat) :
    (resolveFlow http c).keyIdxs = List.range' c (resolveFlow http c).httpCalls := by
  rcases h : (apiResolve http c).result with b | e | _
  · rcases b with _ | s | _
    · simp [resolveFlow, h, apiResolve_keys]
    · by_cases hs : 0 < s
      · obtain ⟨r1, r2, r3, r4, r5, r6⟩ :=
          retryResolveOnce_shape http (c + (apiResolve http c).calls)
        simp only [resolveFlow, h, hs, if_pos]
        rw [r2, r3, apiResolve_keys, apiResolve_keys, range'_append_eq]
      · simp [resolveFlow, h, hs, apiResolve_keys]
    · simp [resolveFlow, h, apiResolve_keys]
  · simp [resolveFlow, h, apiResolve_keys]
  · simp [resolveFlow, h, apiResolve_keys]

lemma handleResolve_keys (remaining : Option Int) (http : Nat → HttpResp)
    (c : Nat) :
    (handleResolve remaining http c).keyIdxs =
      List.range' c (handleResolve remaining http c).httpCalls := by
  rcases remaining with _ | v
  · exact resolveFlow_keys http c
  · by_cases hv : Int.toNat v = 0 <;> simp [handleResolve, hv, resolveFlow_keys]

/-- C4: whenever the resolve call of a flow returns `too_early` with a
positive `seconds_remaining`, the controller starts a local countdown of
exactly that many seconds, retries the resolve exactly once (two `apiResolve`
invocations in total), and never surfaces the `too_early` response as an
error to the user. -/
theorem tooEarly_countdown_single_retry (remaining : Option Int)
    (http : Nat → HttpResp) (c : Nat) (s : Int)
    (h : (apiResolve http c).result = ApiResult.body (ResolveBody.tooEarly s))
    (hs : 0 < s) :
    Int.toNat s ∈ (handleResolve remaining http c).countdowns ∧
    (handleResolve remaining http c).apiCalls = 2 ∧
    (handleResolve remaining http c).errorShown = false := by
  obtain ⟨f1, f2, f3⟩ := resolveFlow_tooEarly http c s h hs
  rcases remaining with _ | v
  · simp [handleResolve, f1, f2, f3]
  · by_cases hv : Int.toNat v = 0 <;> simp [handleResolve, hv, f1, f2, f3]

theorem tooEarly_countdown_single_retry_witness :
    Int.toNat 5 ∈ (handleResolve none
        (fun i => if i = 0 then HttpResp.ok (ResolveBody.tooEarly 5)
          else HttpResp.ok ResolveBody.okPayload) 0).countdowns ∧
      (handleResolve none
        (fun i => if i = 0 then HttpResp.ok (ResolveBody.tooEarly 5)
          else HttpResp.ok ResolveBody.okPayload) 0).apiCalls = 2 ∧
      (handleResolve none
        (fun i => if i = 0 then HttpResp.ok (ResolveBody.tooEarly 5)
          else HttpResp.ok ResolveBody.okPayload) 0).errorShown = false :=
  tooEarly_countdown_single_retry none
    (fun i => if i = 0 then HttpResp.ok (ResolveBody.tooEarly 5)
      else HttpResp.ok ResolveBody.okPayload) 0 5 (by decide) (by decide)

/-- C10: when the priming remaining-seconds request fails (rejected fetch or
non-OK status, the catch branch), the flow does not abort: it issues a
resolve attempt anyway, finalizing on `ok:true`, running a countdown and one
retry on `too_early`, and hiding the mini indicator with no error surfaced
on any other failure. -/
theorem remaining_failure_fallback (http : Nat → HttpResp) (c : Nat) :
    (handleResolve none http c).errorShown = false ∧
    1 ≤ (handleResolve none http c).apiCalls ∧
    ((apiResolve http c).result = ApiResult.body ResolveBody.okPayload →
      (handleResolve none http c).finalized = true ∧
      (handleResolve none http c).apiCalls = 1) ∧
    (∀ s : Int,
      (apiResolve http c).result = ApiResult.body (ResolveBody.tooEarly s) →
      0 < s →
      (handleResolve none http c).countdowns = [Int.toNat s] ∧
      (handleResolve none http c).apiCalls = 2) ∧
    ((∀ b, (apiResolve http c).result ≠ ApiResult.body b) →
      (handleResolve none http c).finalized = false ∧
      (handleResolve none http c).miniHidden = true) := by
  obtain ⟨g1, g2, g3⟩ := resolveFlow_shape http c
  refine ⟨g2, g1, ?_, ?_, ?_⟩
  · intro h
    simp [handleResolve, resolveFlow, h]
  · intro s h hs
    obtain ⟨f1, f2, f3⟩ := resolveFlow_tooEarly http c s h hs
    exact ⟨f2, f1⟩
  · intro h
    rcases hr : (apiResolve http c).result with b | e | _
    · exact absurd hr (h b)
    · simp [handleResolve, resolveFlow, hr]
    · simp [handleResolve, resolveFlow, hr]

theorem remaining_failure_fallback_witness :
    (handleResolve none (fun _ => HttpResp.ok ResolveBody.okPayload) 0).finalized
        = true ∧
      (handleResolve none (fun _ => HttpResp.ok ResolveBody.okPayload) 0).apiCalls
        = 1 :=
  (remaining_failure_fallback (fun _ => HttpResp.ok ResolveBody.okPayload) 0).2.2.1
    (by decide)

/-- C5: every resolve HTTP request of a `handleResolve` flow — including each
automatic 409/423 retry and each post-countdown retry — carries an
idempotency key produced by a fresh invocation of the generator: the
generator-invocation indices are consecutive, hence pairwise distinct, so no
two requests in a retry sequence reuse the same key verbatim for any
generator that never repeats a value. -/
theorem idempotency_keys_fresh (remaining : Option Int) (http : Nat → HttpResp)
    (c : Nat) :
    (handleResolve remaining http c).keyIdxs =
      List.range' c (handleResolve remaining http c).httpCalls ∧
    (handleResolve remaining http c).keyIdxs.Nodup ∧
    ∀ (g : Nat → String), Function.Injective g →
      ((handleResolve remaining http c).keyIdxs.map g).Nodup := by
  have hk := handleResolve_keys remaining http c
  refine ⟨hk, ?_, ?_⟩
  · rw [hk]
    exact List.nodup_range' c _
  · intro g hg
    rw [hk]
    exact (List.nodup_range' c _).map hg

theorem idempotency_keys_fresh_witness :
    ((handleResolve none (fun _ => HttpResp.status 409) 0).keyIdxs.map
      (fun n => String.mk (List.replicate n 'k'))).Nodup :=
  (idempotency_keys_fresh none (fun _ => HttpResp.status 409) 0).2.2
    (fun n => String.mk (List.replicate n 'k'))
    (fun a b hab => by
      have h2 : (String.mk (List.replicate a 'k')).data.length =
          (String.mk (List.replicate b 'k')).data.length :=
        congrArg (fun s => s.data.length) hab
      simpa using h2)

/-! ## Mini countdown ticks (resolve_ports.js, `startMiniCountdown`) -/

/-- Remaining seconds computed by a mini-countdown tick firing at wall time
`t` for a countdown of `total` whole seconds started at wall time `start`:
`Math.max(0, total - Math.floor((Date.now() - start) / 1000))`.  Nat
subtraction truncates at zero exactly like the `Math.max(0, ·)`. -/
def leftAt (total start t : Nat) : Nat := total - (t - start) / 1000

/-- Observable trace of one mini countdown: the remaining-seconds values
written to the row's countdown text at each tick that fired, the number of
invocations of the completion callback, and the wall time of the tick that
invoked it. -/
structure MiniRun where
  displays : List Nat
  onDoneCalls : Nat
  firedAt : Option Nat
deriving DecidableEq, Repr

/-- Process the interval ticks of `startMiniCountdown` at the given wall
times.  Each tick recomputes the remaining seconds from the captured start
timestamp; at the first tick where it reaches zero the interval is cleared
(so no later tick fires), the timer is dropped from the row map and the
completion callback `onDone` is invoked. -/
def miniTicks (total start : Nat) : List Nat → MiniRun
  | [] => ⟨[], 0, none⟩
  | t :: ts =>
    let left := leftAt total start t
    if left = 0 then ⟨[left], 1, some t⟩
    else
      let r := miniTicks total start ts
      ⟨left :: r.displays, r.onDoneCalls, r.firedAt⟩

/-- C6: every tick of a mini countdown of `total` whole seconds derives the
remaining seconds as `max(0, total - floor((now - start)/1000))` from the
captured start timestamp (a wall-clock delta, never an accumulated tick
count), and the completion callback is invoked exactly once, at the first
tick at which the remaining time reaches zero. -/
theorem miniCountdown_exact (total start : Nat) (ticks : List Nat) :
    (miniTicks total start ticks).onDoneCalls ≤ 1 ∧
    (miniTicks total start ticks).firedAt =
      ticks.find? (fun t => leftAt total start t == 0) ∧
    ((miniTicks total start ticks).onDoneCalls = 1 ↔
      ((miniTicks total start ticks).firedAt).isSome) ∧
    (miniTicks total start ticks).displays =
      (ticks.take (miniTicks total start ticks).displays.length).map
        (fun t => leftAt total start t) := by
  induction ticks with
  | nil => simp [miniTicks]
  | cons t ts ih =>
    obtain ⟨ih1, ih2, ih3, ih4⟩ := ih
    by_cases h : leftAt total start t = 0
    · have hrun : miniTicks total start (t :: ts) = ⟨[0], 1, some t⟩ := by
        simp [miniTicks, h]
      rw [hrun]
      refine ⟨by simp, ?_, by simp, ?_⟩
      · rw [List.find?_cons_of_pos]
        simp [h]
      · simp [h]
    · have hrun : miniTicks total start (t :: ts) =
          ⟨leftAt total start t :: (miniTicks total start ts).displays,
           (miniTicks total start ts).onDoneCalls,
           (miniTicks total start ts).firedAt⟩ := by
        simp [miniTicks, h]
      rw [hrun]
      refine ⟨ih1, ?_, ih3, ?_⟩
      · rw [List.find?_cons_of_neg]
        · exact ih2
        · simp [h]
      · simp only [List.length_cons, List.take_succ_cons, List.map_cons]
        rw [← ih4]

theorem miniCountdown_exact_witness :
    (miniTicks 2 0 [300, 600, 2100, 2400]).onDoneCalls ≤ 1 ∧
      (miniTicks 2 0 [300, 600, 2100, 2400]).firedAt =
        [300, 600, 2100, 2400].find? (fun t => leftAt 2 0 t == 0) :=
  ⟨(miniCountdown_exact 2 0 [300, 600, 2100, 2400]).1,
   (miniCountdown_exact 2 0 [300, 600, 2100, 2400]).2.1⟩

/-! ## Shared row-timer map (resolve_ports.js, `VM.state.rowTimers`) -/

/-- The shared `VM.state.rowTimers` map together with the set of interval
handles that have not been cleared (`live`) and a counter from which fresh
interval handles are drawn.  `timers` is the association list of
(row key, interval handle) entries. -/
structure TimerMap where
  timers : List (Nat × Nat)
  live : List Nat
  next : Nat
deriving DecidableEq, Repr

/-- `VM.state.rowTimers.get(k)`. -/
def lookupTimer (m : List (Nat × Nat)) (k : Nat) : Option Nat :=
  (m.find? (fun p => p.1 == k)).map (fun p => p.2)

/-- `stopTimerForRow`: if a timer is registered for the key, clear the
interval and delete the entry. -/
def stopTimerForRow (s : TimerMap) (k : Nat) : TimerMap :=
  match lookupTimer s.timers k with
  | some h =>
    { s with timers := s.timers.filter (fun p => p.1 != k), live := s.live.erase h }
  | none => s

/-- The timer-map effect of `startMiniCountdown` for row key `k`: first
`stopTimerForRow(rowId)`, then `setInterval` creates a fresh handle which is
stored in the map under the key. -/
def startMiniCountdown (s : TimerMap) (k : Nat) : TimerMap :=
  let s1 := stopTimerForRow s k
  { timers := (k, s1.next) :: s1.timers, live := s1.next :: s1.live,
    next := s1.next + 1 }

/-- The timer-map effect of a mini countdown completing for row key `k`: the
tick clears its own interval and deletes the row's entry
(`clearInterval(timer); VM.state.rowTimers.delete(rowId)`). -/
def completeCountdown (s : TimerMap) (k : Nat) : TimerMap := stopTimerForRow s k

/-- The operations resolve_ports.js performs on the shared row-timer map. -/
inductive TimerOp where
  | stop (k : Nat)
  | start (k : Nat)
  | complete (k : Nat)
deriving DecidableEq, Repr

def applyTimerOp (s : TimerMap) : TimerOp → TimerMap
  | .stop k => stopTimerForRow s k
  | .start k => startMiniCountdown s k
  | .complete k => completeCountdown s k

/-- Run a sequence of timer-map operations from the initial empty map. -/
def runTimerOps (ops : List TimerOp) : TimerMap :=
  ops.foldl applyTimerOp ⟨[], [], 0⟩

/-- Invariant of the row-timer map: keys are pairwise distinct (at most one
entry per row key), handles are pairwise distinct, and every handle ever
stored is below the freshness counter. -/
def TimerInv (s : TimerMap) : Prop :=
  (s.timers.map Prod.fst).Nodup ∧ s.live.Nodup ∧
  (∀ p ∈ s.timers, p.2 < s.next) ∧ (∀ h ∈ s.live, h < s.next)

lemma lookupTimer_filter_ne (m : List (Nat × Nat)) (k : Nat) :
    lookupTimer (m.filter (fun p => p.1 != k)) k = none := by
  have hfind : (m.filter (fun p => p.1 != k)).find? (fun p => p.1 == k) = none := by
    rw [List.find?_eq_none]
    intro p hp
    have := (List.mem_filter.mp hp).2
    simp only [bne_iff_ne, ne_eq, decide_not] at this ⊢
    simpa using this
  simp [lookupTimer, hfind]

lemma stopTimer_lookup_none (s : TimerMap) (k : Nat) :
    lookupTimer (stopTimerForRow s k).timers k = none := by
  rcases h : lookupTimer s.timers k with _ | v
  · simp [stopTimerForRow, h]
  · simp [stopTimerForRow, h, lookupTimer_filter_ne]

lemma stopTimer_next (s : TimerMap) (k : Nat) :
    (stopTimerForRow s k).next = s.next := by
  rcases h : lookupTimer s.timers k with _ | v <;> simp [stopTimerForRow, h]

lemma lookupTimer_mem (m : List (Nat × Nat)) (k v : Nat)
    (h : lookupTimer m k = some v) : (k, v) ∈ m := by
  simp only [lookupTimer, Option.map_eq_some'] at h
  obtain ⟨p, hp, hv⟩ := h
  have hmem := List.mem_of_find?_eq_some hp
  have hkey := List.find?_some hp
  have : p = (k, v) := by
    obtain ⟨p1, p2⟩ := p
    simp only [beq_iff_eq] at hkey
    simp_all
  rwa [this] at hmem

lemma timerInv_stop (s : TimerMap) (k : Nat) (hs : TimerInv s) :
    TimerInv (stopTimerForRow s k) := by
  obtain ⟨h1, h2, h3, h4⟩ := hs
  rcases h : lookupTimer s.timers k with _ | v
  · simpa [stopTimerForRow, h] using ⟨h1, h2, h3, h4⟩
  · simp only [stopTimerForRow, h]
    refine ⟨?_, ?_, ?_, ?_⟩
    · exact ((List.filter_sublist _).map Prod.fst).nodup h1
    · exact h2.erase v
    · intro p hp
      exact h3 p (List.mem_of_mem_filter hp)
    · intro x hx
      exact h4 x (List.mem_of_mem_erase hx)

lemma lookup_none_not_key (m : List (Nat × Nat)) (k : Nat)
    (h : lookupTimer m k = none) : k ∉ m.map Prod.fst := by
  intro hmem
  obtain ⟨p, hp, hpk⟩ := List.mem_map.mp hmem
  have hfind : m.find? (fun p => p.1 == k) = none := by
    simpa [lookupTimer] using h
  have := List.find?_eq_none.mp hfind p hp
  simp [hpk] at this

lemma timerInv_start (s : TimerMap) (k : Nat) (hs : TimerInv s) :
    TimerInv (startMiniCountdown s k) := by
  obtain ⟨h1, h2, h3, h4⟩ := timerInv_stop s k hs
  have hlk := stopTimer_lookup_none s k
  refine ⟨?_, ?_, ?_, ?_⟩
  · simp only [startMiniCountdown, List.map_cons]
    exact List.nodup_cons.mpr ⟨lookup_none_not_key _ k hlk, h1⟩
  · simp only [startMiniCountdown]
    exact List.nodup_cons.mpr ⟨fun hmem => absurd (h4 _ hmem) (by omega), h2⟩
  · simp only [startMiniCountdown]
    intro p hp
    rcases List.mem_cons.mp hp with hp | hp
    · simp [hp]
    · have := h3 p hp
      omega
  · simp only [startMiniCountdown]
    intro x hx
    rcases List.mem_cons.mp hx with hx | hx
    · omega
    · have := h4 x hx
      omega

lemma timerInv_apply (s : TimerMap) (op : TimerOp) (hs : TimerInv s) :
    TimerInv (applyTimerOp s op) := by
  cases op with
  | stop k => exact timerInv_stop s k hs
  | start k => exact timerInv_start s k hs
  | complete k => exact timerInv_stop s k hs

lemma timerInv_run (ops : List TimerOp) : TimerInv (runTimerOps ops) := by
  suffices h : ∀ s, TimerInv s → TimerInv (ops.foldl applyTimerOp s) from
    h ⟨[], [], 0⟩ ⟨by simp, by simp, by simp, by simp⟩
  induction ops with
  | nil => exact fun s hs => hs
  | cons op ops ih => exact fun s hs => ih _ (timerInv_apply s op hs)

/-- C7: the shared row-timer map holds at most one active timer handle per
row key at all times (its key list stays duplicate-free); stopping or
completing a countdown removes the key's timer from the map; and starting a
countdown for a key first cancels the prior interval handle for that key (it
is no longer live afterwards) and maps the key to the freshly created
handle. -/
theorem rowTimers_at_most_one (ops : List TimerOp) :
    ((runTimerOps ops).timers.map Prod.fst).Nodup ∧
    (∀ k, lookupTimer (stopTimerForRow (runTimerOps ops) k).timers k = none) ∧
    (∀ k, lookupTimer (completeCountdown (runTimerOps ops) k).timers k = none) ∧
    (∀ k v, lookupTimer (runTimerOps ops).timers k = some v →
      v ∉ (startMiniCountdown (runTimerOps ops) k).live ∧
      lookupTimer (startMiniCountdown (runTimerOps ops) k).timers k =
        some (runTimerOps ops).next) := by
  obtain ⟨h1, h2, h3, h4⟩ := timerInv_run ops
  set s := runTimerOps ops with hsdef
  refine ⟨h1, fun k => stopTimer_lookup_none s k,
    fun k => stopTimer_lookup_none s k, fun k v hv => ?_⟩
  have hvlt : v < s.next := h3 _ (lookupTimer_mem s.timers k v hv)
  constructor
  · simp only [startMiniCountdown, List.mem_cons]
    rintro (hv1 | hv2)
    · rw [stopTimer_next] at hv1
      omega
    · have herase : (stopTimerForRow s k).live = s.live.erase v := by
        simp [stopTimerForRow, hv]
      rw [herase] at hv2
      exact absurd hv2 (by simp [h2.mem_erase_iff])
  · simp [startMiniCountdown, lookupTimer, List.find?, stopTimer_next]

theorem rowTimers_at_most_one_witness :
    lookupTimer
      (stopTimerForRow (runTimerOps [TimerOp.start 1]) 1).timers 1 = none :=
  (rowTimers_at_most_one [TimerOp.start 1]).2.1 1

/-! ## News-search job poller (news_search.js) -/

/-- Locally interpolated progress fraction of an in-progress job, from
`updateProgressUI`: `Math.min(0.99, Math.max(0, (now - started) / (eta -
started)))`, with all times in milliseconds. -/
def interpProgress (started eta now : Int) : ℚ :=
  min (99 / 100 : ℚ) (max 0 (((now : ℚ) - (started : ℚ)) / ((eta : ℚ) - (started : ℚ))))

/-- News-search job states the poller distinguishes. -/
inductive JobStatus where
  | inProgress
  | completed
  | otherStatus
deriving DecidableEq, Repr

/-- The slice of the news-search UI the poller drives: the trigger button,
the progress-fill width in percent, and the result panel visibility. -/
structure NewsUI where
  btnDisabled : Bool
  progressPct : ℚ
  resultShown : Bool
deriving DecidableEq, Repr

/-- `updateProgressUI`: the progress fill is moved only when both timestamps
are finite and `eta > started`; the new width is the interpolated fraction
× 100 percent, otherwise the current width is left alone. -/
def updateProgressUI (started eta now : Int) (currentPct : ℚ) : ℚ :=
  if started < eta then 100 * interpProgress started eta now else currentPct

/-- `renderJob`: an `in_progress` job disables the trigger and drives the
bar through `updateProgressUI`; a `completed` job re-enables the trigger,
pins the bar to exactly 100% and shows the result panel (`showResult`);
anything else resets to the idle UI. -/
def renderJob (status : JobStatus) (started eta now : Int) (currentPct : ℚ) :
    NewsUI :=
  match status with
  | .inProgress => ⟨true, updateProgressUI started eta now currentPct, false⟩
  | .completed => ⟨false, 100, true⟩
  | .otherStatus => ⟨false, 0, false⟩

/-- C8: for every in-progress job with valid timestamps (`eta > started`),
the locally interpolated progress fraction is clamped into [0, 0.99], so the
bar (fraction × 100) never reaches 100% before the server reports
completion; once the job is `completed` the bar is pinned to exactly 100%
and the result panel is shown. -/
theorem newsProgress_clamped (started eta now : Int) (currentPct : ℚ)
    (h : started < eta) :
    0 ≤ interpProgress started eta now ∧
    interpProgress started eta now ≤ 99 / 100 ∧
    (renderJob JobStatus.inProgress started eta now currentPct).progressPct =
      100 * interpProgress started eta now ∧
    (renderJob JobStatus.inProgress started eta now currentPct).progressPct ≤ 99 ∧
    (renderJob JobStatus.completed started eta now currentPct).progressPct = 100 ∧
    (renderJob JobStatus.completed started eta now currentPct).resultShown = true := by
  have hlo : (0 : ℚ) ≤ interpProgress started eta now := by
    unfold interpProgress
    exact le_min (by norm_num) (le_max_left 0 _)
  have hhi : interpProgress started eta now ≤ 99 / 100 :=
    min_le_left _ _
  have hpct : (renderJob JobStatus.inProgress started eta now currentPct).progressPct
      = 100 * interpProgress started eta now := by
    simp [renderJob, updateProgressUI, h]
  refine ⟨hlo, hhi, hpct, ?_, rfl, rfl⟩
  rw [hpct]
  calc 100 * interpProgress started eta now
      ≤ 100 * (99 / 100 : ℚ) := by
        exact mul_le_mul_of_nonneg_left hhi (by norm_num)
    _ = 99 := by norm_num

theorem newsProgress_clamped_witness :
    0 ≤ interpProgress 0 10000 5000 ∧
      interpProgress 0 10000 5000 ≤ 99 / 100 ∧
      (renderJob JobStatus.completed 0 10000 5000 0).progressPct = 100 ∧
      (renderJob JobStatus.completed 0 10000 5000 0).resultShown = true :=
  ⟨(newsProgress_clamped 0 10000 5000 0 (by norm_num)).1,
   (newsProgress_clamped 0 10000 5000 0 (by norm_num)).2.1,
   (newsProgress_clamped 0 10000 5000 0 (by norm_num)).2.2.2.2.1,
   (newsProgress_clamped 0 10000 5000 0 (by norm_num)).2.2.2.2.2⟩

/-! ## Withdraw form (user_dashboard.js, `attachWithdrawHandler`) -/

/-- Split a character list at the first dot, returning the integer part and,
when a dot is present, the fractional part. -/
def splitDot : List Char → List Char × Option (List Char)
  | [] => ([], none)
  | c :: r =>
    if c = '.' then ([], some r)
    else
      let p := splitDot r
      (c :: p.1, p.2)

/-- Decimal value of an all-digit character list (the empty list counts as
zero, as in "5." and ".5"). -/
def decDigits (cs : List Char) : Option Nat :=
  if cs.all Char.isDigit then
    some (cs.foldl (fun acc ch => acc * 10 + (ch.toNat - 48)) 0)
  else none

/-- Result of the JS `Number(raw)` coercion of the amount field: a finite
rational or NaN (which also stands for ±Infinity — any non-finite value, all
of which the handler rejects the same way). -/
inductive NumVal where
  | nan
  | num (q : ℚ)
deriving DecidableEq, Repr

/-- Unsigned part of the JS `Number` decimal grammar: digits with an
optional single fractional part; at least one digit overall. -/
def jsNumberCore (cs : List Char) : Option ℚ :=
  match splitDot cs with
  | (intPart, none) =>
    if intPart = [] then none
    else (decDigits intPart).map (fun n => (n : ℚ))
  | (intPart, some fracPart) =>
    if intPart = [] ∧ fracPart = [] then none
    else
      match decDigits intPart, decDigits fracPart with
      | some n, some f => some ((n : ℚ) + (f : ℚ) / (10 : ℚ) ^ fracPart.length)
      | _, _ => none

/-- JS `Number(raw)` restricted to the plain decimal grammar the withdraw
field uses: the empty (trimmed) string coerces to 0, an optional sign
precedes the digits, and any string outside the grammar is NaN. -/
def jsNumber (s : String) : NumVal :=
  match s.data with
  | [] => NumVal.num 0
  | '-' :: rest =>
    match jsNumberCore rest with
    | some q => NumVal.num (-q)
    | none => NumVal.nan
  | '+' :: rest =>
    match jsNumberCore rest with
    | some q => NumVal.num q
    | none => NumVal.nan
  | cs =>
    match jsNumberCore cs with
    | some q => NumVal.num q
    | none => NumVal.nan

/-- Response of one withdraw POST: HTTP status, the body's `ok` flag, and
whether the body carries `wallet` / `withdrawals` objects. -/
structure WithdrawResp where
  status : Nat
  okFlag : Bool
  hasWallet : Bool
  hasWithdrawals : Bool
deriving DecidableEq, Repr

/-- Observable outcome of one submit of the withdraw form. `requests` lists
the `amount_sar` bodies POSTed. -/
structure WithdrawOutcome where
  requests : List ℚ
  inputCleared : Bool
  walletUpdated : Bool
  withdrawalsUpdated : Bool
deriving DecidableEq, Repr

/-- The withdraw submit handler: a non-finite or non-positive parsed amount
returns before any fetch (`!isFinite(amt) || amt <= 0`); otherwise exactly
one POST with body `{amount_sar: amt}` is issued (`resp = none` models a
rejected fetch, caught silently), and only an HTTP 200 response with
`ok:true` clears the input and applies whichever of the wallet /
withdrawals updates the body carries. -/
def withdrawSubmit (amt : NumVal) (resp : Option WithdrawResp) :
    WithdrawOutcome :=
  match amt with
  | .nan => ⟨[], false, false, false⟩
  | .num q =>
    if q ≤ 0 then ⟨[], false, false, false⟩
    else
      match resp with
      | none => ⟨[q], false, false, false⟩
      | some r =>
        if r.status = 200 ∧ r.okFlag = true then
          ⟨[q], true, r.hasWallet, r.hasWithdrawals⟩
        else ⟨[q], false, false, false⟩

/-- C9: a withdrawal submission whose amount parses to a non-finite or
non-positive number (such as "0" or "-5") issues zero network requests; an
amount parsing to a finite positive number (such as "25.50", which parses to
25.5) issues exactly one POST with body `{amount_sar: 25.5}`, and on an HTTP
200 response with `ok:true` the input field is cleared and the wallet
balance display is updated from the body's wallet object. -/
theorem withdraw_validation (resp : Option WithdrawResp) :
    (∀ q : ℚ, q ≤ 0 → (withdrawSubmit (NumVal.num q) resp).requests = []) ∧
    (withdrawSubmit NumVal.nan resp).requests = [] ∧
    (withdrawSubmit (jsNumber "0") resp).requests = [] ∧
    (withdrawSubmit (jsNumber "-5") resp).requests = [] ∧
    (withdrawSubmit (jsNumber "25.50") resp).requests = [(51 : ℚ) / 2] ∧
    (∀ r, resp = some r → r.status = 200 → r.okFlag = true →
      (withdrawSubmit (jsNumber "25.50") resp).inputCleared = true ∧
      (withdrawSubmit (jsNumber "25.50") resp).walletUpdated = r.hasWallet) := by
  have h0 : jsNumber "0" = NumVal.num 0 := by decide
  have h5 : jsNumber "-5" = NumVal.num (-5) := by decide
  have h25 : jsNumber "25.50" = NumVal.num ((51 : ℚ) / 2) := by
    have h : jsNumber "25.50" = NumVal.num (((25 : Nat) : ℚ) +
        ((50 : Nat) : ℚ) / (10 : ℚ) ^ (['5', '0'] : List Char).length) := rfl
    rw [h]
    norm_num
  have hpos : ¬ ((51 : ℚ) / 2 ≤ 0) := by norm_num
  have hq : ∀ q : ℚ, q ≤ 0 → (withdrawSubmit (NumVal.num q) resp).requests = [] := by
    intro q hle
    simp [withdrawSubmit, hle]
  refine ⟨hq, rfl, ?_, ?_, ?_, ?_⟩
  · rw [h0]
    exact hq 0 le_rfl
  · rw [h5]
    exact hq (-5) (by norm_num)
  · rw [h25]
    rcases resp with _ | r
    · simp [withdrawSubmit, hpos]
    · by_cases hr : r.status = 200 ∧ r.okFlag = true <;>
        simp [withdrawSubmit, hpos, hr]
  · intro r hresp hst hok
    subst hresp
    rw [h25]
    simp [withdrawSubmit, hpos, hst, hok]

theorem withdraw_validation_witness :
    (withdrawSubmit (jsNumber "25.50")
        (some (WithdrawResp.mk 200 true true true))).inputCleared = true ∧
      (withdrawSubmit (jsNumber "25.50")
        (some (WithdrawResp.mk 200 true true true))).walletUpdated = true :=
  (withdraw_validation (some (WithdrawResp.mk 200 true true true))).2.2.2.2.2
    (WithdrawResp.mk 200 true true true) rfl rfl rfl

end VulnMap
